import Mathlib

/-!
# Fys3150-4150: verification of the numerical drivers

Shallow embedding of

* `ParallelEnergySolver::iterate_temperature_parallel`
  (`project4/src/generate_parallel.cpp`),
* the `CircularMatrix` lattice used by `project4/src/test_circular_matrix.cpp`,
* `rhs_func`, `exact_solution`, `thomas_algorithm` and `thomas_algorithm_special`
  (`project1/src/algorithm_calculations.cpp`),
* `gauss_legendre_points` (`project3/src/gauss_laguerre_quadrature.cpp`).

`double` values are embedded as elements of an arbitrary field `α` (exact
arithmetic), so every definition can be evaluated over `ℚ` and every theorem
specialises to `ℝ`; a quotient whose divisor can be `0` is an `Option`.  The C
`int` values (`world_rank`, `world_size`, step counts, array indices) are
natural numbers; the `int` product that line 22 of `generate_parallel.cpp`
forms before converting to `double` wraps around at 32 bits.
`std::exp` and `std::cos` are passed to the definitions as functions
`exp cos : α → α`; a loop whose number of passes is not bounded by the source
takes a bound `fuel` and yields `none` when the bound is reached.
-/

/-! ## Loops -/

/-- The loop `for (int i = 0; i < m; i++) body(i)` acting on a state `σ`. -/
def loopUp {σ : Type} (body : Nat → σ → σ) : Nat → σ → σ
  | 0, s => s
  | m + 1, s => body m (loopUp body m s)

/-- The loop `for (int i = m; i >= 1; i--) body(i)` acting on a state `σ`. -/
def loopDown {σ : Type} (body : Nat → σ → σ) : Nat → σ → σ
  | 0, s => s
  | m + 1, s => loopDown body m (body (m + 1) s)

/-! ## `iterate_temperature_parallel`: the temperature partition -/

namespace ParallelEnergySolver

variable {α : Type}

/-- The value a 32-bit `int` holds after an arithmetic result `v`
(two's-complement wrap-around into `-2^31 .. 2^31 - 1`). -/
def wrap_int (v : Int) : Int :=
  (v + 2 ^ 31) % 2 ^ 32 - 2 ^ 31

/-- Line 22, the `int` divisor
`(world_size + 1)*num_of_temp_divided_by_num_of_threds`: both the sum and the
product are formed in `int` before the conversion to `double`; `k` is
`num_of_temp_divided_by_num_of_threds`. -/
def temp_divisor (k world_size : Nat) : Int :=
  wrap_int (wrap_int ((world_size : Int) + 1) * (k : Int))

/-- Line 22: `diff_temp = (final_temp - initial_temp) /
((world_size + 1)*num_of_temp_divided_by_num_of_threds)`.  The quotient has no
value in exact arithmetic when the divisor is `0`; that case is `none`. -/
def diff_temp [Field α] (initial_temp final_temp : α) (k world_size : Nat) : Option α :=
  if temp_divisor k world_size = 0 then none
  else some ((final_temp - initial_temp) / ((temp_divisor k world_size : Int) : α))

/-- Line 23: `init_temp = initial_temp +
diff_temp*num_of_temp_divided_by_num_of_threds*world_rank`. -/
def init_temp [Field α] (initial_temp final_temp : α) (k world_size world_rank : Nat) :
    Option α :=
  (diff_temp initial_temp final_temp k world_size).map fun d =>
    initial_temp + d * (k : α) * (world_rank : α)

/-- Line 24: `fin_temp = initial_temp +
diff_temp*num_of_temp_divided_by_num_of_threds*(world_rank + 1)`
(`world_rank + 1` is at most `world_size`, an `int`). -/
def fin_temp [Field α] (initial_temp final_temp : α) (k world_size world_rank : Nat) :
    Option α :=
  (diff_temp initial_temp final_temp k world_size).map fun d =>
    initial_temp + d * (k : α) * ((world_rank + 1 : Nat) : α)

/-- Line 37: `temp = init_temp + diff_temp*num_iteration`. -/
def temp [Field α] (initial_temp final_temp : α) (k world_size world_rank num_iteration : Nat) :
    Option α :=
  (init_temp initial_temp final_temp k world_size world_rank).bind fun t0 =>
    (diff_temp initial_temp final_temp k world_size).map fun d =>
      t0 + d * (num_iteration : α)

/-- The temperatures visited by the loop of line 34 on one rank, in loop order:
`num_iteration` runs over `0, 1, ..., k` (the bound is `<=`). -/
def visited [Field α] (initial_temp final_temp : α) (k world_size world_rank : Nat) :
    List (Option α) :=
  (List.range (k + 1)).map (temp initial_temp final_temp k world_size world_rank)

/-- The temperatures visited by all ranks `0, ..., world_size - 1` of one run. -/
def visited_all [Field α] (initial_temp final_temp : α) (k world_size : Nat) :
    List (Option α) :=
  (List.range world_size).flatMap (visited initial_temp final_temp k world_size)

/-! ### Result storage (lines 26-30 and 47-51) -/

/-- The five running sums that `mc_iteration_stable(temp)` leaves in the solver
(`sum_total_energy`, ..., `sum_total_magnetization_squared`).  The routine is
declared in `energy_solver.h`; its values are an input of the storage model. -/
structure Sums (α : Type) where
  sum_total_energy : α
  sum_total_energy_squared : α
  sum_total_magnetization : α
  sum_total_magnetization_absolute : α
  sum_total_magnetization_squared : α

/-- The five result arrays of lines 26-30.  A cell holds `none` until it is
written (`new double[...]` leaves the cells uninitialised). -/
structure Results (α : Type) where
  sum_total_energy_array : Nat → Option α
  sum_total_energy_squared_array : Nat → Option α
  sum_total_magnetization_array : Nat → Option α
  sum_total_magnetization_absolute_array : Nat → Option α
  sum_total_magnetization_squared_array : Nat → Option α

/-- The index `world_rank*num_iteration` used by lines 47-51. -/
def slot (world_rank num_iteration : Nat) : Nat :=
  world_rank * num_iteration

/-- Lines 47-51: the five stores of one loop iteration into arrays of `k`
cells.  A store outside the allocated cells has no defined behaviour and is
reported as `none`. -/
def store_sums (k world_rank : Nat) (sums : Nat → Sums α) (num_iteration : Nat)
    (res : Results α) : Option (Results α) :=
  if slot world_rank num_iteration < k then
    some
      { sum_total_energy_array :=
          Function.update res.sum_total_energy_array (slot world_rank num_iteration)
            (some (sums num_iteration).sum_total_energy)
        sum_total_energy_squared_array :=
          Function.update res.sum_total_energy_squared_array (slot world_rank num_iteration)
            (some (sums num_iteration).sum_total_energy_squared)
        sum_total_magnetization_array :=
          Function.update res.sum_total_magnetization_array (slot world_rank num_iteration)
            (some (sums num_iteration).sum_total_magnetization)
        sum_total_magnetization_absolute_array :=
          Function.update res.sum_total_magnetization_absolute_array
            (slot world_rank num_iteration)
            (some (sums num_iteration).sum_total_magnetization_absolute)
        sum_total_magnetization_squared_array :=
          Function.update res.sum_total_magnetization_squared_array
            (slot world_rank num_iteration)
            (some (sums num_iteration).sum_total_magnetization_squared) }
  else none

/-- The freshly allocated result arrays of lines 26-30. -/
def fresh_results : Results α :=
  ⟨fun _ => none, fun _ => none, fun _ => none, fun _ => none, fun _ => none⟩

/-- The result arrays after the loop of line 34 (`num_iteration = 0, ..., k`),
where `sums j` are the sums computed at iteration `j`. -/
def stored_results (world_rank k : Nat) (sums : Nat → Sums α) : Option (Results α) :=
  loopUp (fun num_iteration res => res.bind (store_sums k world_rank sums num_iteration))
    (k + 1) (some fresh_results)

/-! ### The table of exponentials (lines 39-43) -/

/-- Lines 39-43: the five stores into `exp_delta_energy`, in source order.
The array is a member of `IsingModel`; its previous content is the argument
`exp_delta_energy`. -/
def rebuild_exp_delta_energy [Field α] (exp : α → α) (J temp : α)
    (exp_delta_energy : Nat → α) : Nat → α :=
  let t0 := Function.update exp_delta_energy 0 (exp (8 * J / temp))
  let t1 := Function.update t0 4 (exp (4 * J / temp))
  let t2 := Function.update t1 8 1
  let t3 := Function.update t2 12 (exp (-4 * J / temp))
  Function.update t3 16 (exp (-8 * J / temp))

end ParallelEnergySolver

/-! ## `CircularMatrix` -/

/-- Modelled from the spec: `circular_matrix.h` is not among the sources (only
its test is).  A square grid of dimension `dim`, stored row by row. -/
structure CircularMatrix where
  dim : Nat
  matrix : Array Int

namespace CircularMatrix

/-- Modelled from the spec: `construct(dim, seed)` of the missing
`circular_matrix.h`, "builds a lattice of ±1 values (random if seeded)".  The
random source is the argument `coin` (seed and site number to a coin flip). -/
def construct (coin : Int → Nat → Bool) (n : Nat) (seed : Int) : CircularMatrix :=
  { dim := n
    matrix := Array.ofFn (fun (idx : Fin (n * n)) => if coin seed idx.val then 1 else -1) }

/-- Modelled from the spec: `ordered_spin()` of the missing `circular_matrix.h`,
"sets every site to +1". -/
def ordered_spin (q : CircularMatrix) : CircularMatrix :=
  { q with matrix := q.matrix.map (fun _ => 1) }

/-- Modelled from the spec: the accessor `q(i, j)` of the missing
`circular_matrix.h`, "`get(i,j)` normalize indices into [0,dim) before access".
A read outside the storage yields `0`, which is not a spin value. -/
def get (q : CircularMatrix) (i j : Int) : Int :=
  q.matrix.getD ((i % (q.dim : Int)).toNat * q.dim + (j % (q.dim : Int)).toNat) 0

end CircularMatrix

/-! ## The tridiagonal solvers of `algorithm_calculations.cpp` -/

/-- Function `rhs_func`: `return 100*exp(-10*x);`. -/
def rhs_func {α : Type} [Field α] (exp : α → α) (x : α) : α :=
  100 * exp (-10 * x)

/-- The arrays of `thomas_algorithm`.  Arrays are total maps from indices; all
cells the algorithm reads for `n >= 1` have been written before and lie inside
the allocated sizes. -/
structure ThomasArrays (α : Type) where
  lower_diag : Nat → α
  diag : Nat → α
  upper_diag : Nat → α
  rhs_val : Nat → α
  computed : Nat → α

namespace ThomasArrays

variable {α : Type} [Field α]

/-- The arrays right after allocation (lines 64-68). -/
def fresh : ThomasArrays α :=
  ⟨fun _ => 0, fun _ => 0, fun _ => 0, fun _ => 0, fun _ => 0⟩

/-- Body of the loop of lines 70-74: `x = stepsize*(i+1)`,
`rhs_val[i] = rhs_func(x)*(stepsize*stepsize)`. -/
def rhs_body (exp : α → α) (stepsize : α) (i : Nat) (s : ThomasArrays α) : ThomasArrays α :=
  let x := stepsize * ((i + 1 : Nat) : α)
  { s with rhs_val := Function.update s.rhs_val i (rhs_func exp x * (stepsize * stepsize)) }

/-- Body of the loop of lines 76-81. -/
def diagonals_body (i : Nat) (s : ThomasArrays α) : ThomasArrays α :=
  { s with
    lower_diag := Function.update s.lower_diag i (-1)
    diag := Function.update s.diag i 2
    upper_diag := Function.update s.upper_diag i (-1) }

/-- Body of the loop of lines 87-91 (forward substitution); the second store
reads the arrays left by the first. -/
def forward_body (i : Nat) (s : ThomasArrays α) : ThomasArrays α :=
  let s1 := { s with
    diag := Function.update s.diag (i + 1)
      (s.diag (i + 1) - s.lower_diag i / s.diag i * s.upper_diag i) }
  { s1 with
    rhs_val := Function.update s1.rhs_val (i + 1)
      (s1.rhs_val (i + 1) - s1.lower_diag i / s1.diag i * s1.rhs_val i) }

/-- Body of the loop of lines 94-97 (backward substitution). -/
def backward_body (i : Nat) (s : ThomasArrays α) : ThomasArrays α :=
  { s with
    computed := Function.update s.computed (i - 1)
      ((s.rhs_val (i - 1) - s.upper_diag (i - 1) * s.computed i) / s.diag (i - 1)) }

end ThomasArrays

/-- Function `thomas_algorithm(n, write, write_error)`, lines 62-97: the array `computed`
at the end of the backward substitution (the value handed to `write_to_file`). -/
def thomas_algorithm {α : Type} [Field α] (exp : α → α) (n : Nat) : Nat → α :=
  let stepsize : α := 1 / ((n + 1 : Nat) : α)
  let s1 := loopUp (ThomasArrays.rhs_body exp stepsize) n ThomasArrays.fresh
  let s2 := loopUp ThomasArrays.diagonals_body (n - 1) s1
  let s3 := { s2 with diag := Function.update s2.diag (n - 1) 2 }
  let s4 := loopUp ThomasArrays.forward_body (n - 1) s3
  let s5 := { s4 with
    computed := Function.update s4.computed (n - 1) (s4.rhs_val (n - 1) / s4.diag (n - 1)) }
  (loopDown ThomasArrays.backward_body (n - 1) s5).computed

/-- The arrays of `thomas_algorithm_special`. -/
structure SpecialArrays (α : Type) where
  diag : Nat → α
  rhs_val : Nat → α
  computed : Nat → α

namespace SpecialArrays

variable {α : Type} [Field α]

/-- The arrays right after allocation (lines 148-150). -/
def fresh : SpecialArrays α :=
  ⟨fun _ => 0, fun _ => 0, fun _ => 0⟩

/-- Body of the loop of lines 152-156. -/
def rhs_body (exp : α → α) (stepsize : α) (i : Nat) (s : SpecialArrays α) : SpecialArrays α :=
  let x := stepsize * ((i + 1 : Nat) : α)
  { s with rhs_val := Function.update s.rhs_val i (rhs_func exp x * (stepsize * stepsize)) }

/-- Body of the loop of lines 158-161: `diag[i] = 2.0`. -/
def diag_body (i : Nat) (s : SpecialArrays α) : SpecialArrays α :=
  { s with diag := Function.update s.diag i 2 }

/-- Body of the loop of lines 163-166: `diag[i+1] = 2.0 - 1.0/diag[i]`. -/
def diag_forward_body (i : Nat) (s : SpecialArrays α) : SpecialArrays α :=
  { s with diag := Function.update s.diag (i + 1) (2 - 1 / s.diag i) }

/-- Body of the loop of lines 171-174:
`rhs_val[i+1] = rhs_val[i+1] + rhs_val[i]/diag[i]`. -/
def rhs_forward_body (i : Nat) (s : SpecialArrays α) : SpecialArrays α :=
  { s with rhs_val := Function.update s.rhs_val (i + 1) (s.rhs_val (i + 1) + s.rhs_val i / s.diag i) }

/-- Body of the loop of lines 178-181:
`computed[i-1] = (rhs_val[i-1] + computed[i])/diag[i-1]`. -/
def backward_body (i : Nat) (s : SpecialArrays α) : SpecialArrays α :=
  { s with
    computed := Function.update s.computed (i - 1)
      ((s.rhs_val (i - 1) + s.computed i) / s.diag (i - 1)) }

end SpecialArrays

/-- Function `thomas_algorithm_special(n, write, write_error)`, lines 146-181: the array
`computed` at the end of the backward substitution. -/
def thomas_algorithm_special {α : Type} [Field α] (exp : α → α) (n : Nat) : Nat → α :=
  let stepsize : α := 1 / ((n + 1 : Nat) : α)
  let s1 := loopUp (SpecialArrays.rhs_body exp stepsize) n SpecialArrays.fresh
  let s2 := loopUp SpecialArrays.diag_body n s1
  let s3 := loopUp SpecialArrays.diag_forward_body (n - 1) s2
  let s4 := loopUp SpecialArrays.rhs_forward_body (n - 1) s3
  let s5 := { s4 with
    computed := Function.update s4.computed (n - 1) (s4.rhs_val (n - 1) / s4.diag (n - 1)) }
  (loopDown SpecialArrays.backward_body (n - 1) s5).computed

/-! ### Closed forms of the intermediate arrays (used by the proofs) -/

/-- The value `rhs_func(x)*(stepsize*stepsize)` stored into `rhs_val[i]` by both
solvers, with `stepsize = 1.0/(n+1)` and `x = stepsize*(i+1)`. -/
def rhs_entry {α : Type} [Field α] (exp : α → α) (n i : Nat) : α :=
  rhs_func exp (1 / ((n + 1 : Nat) : α) * ((i + 1 : Nat) : α)) *
    (1 / ((n + 1 : Nat) : α) * (1 / ((n + 1 : Nat) : α)))

/-- The diagonal after forward substitution: `2, 2 - 1/2, 2 - 1/(2 - 1/2), ...`. -/
def pivot {α : Type} [Field α] : Nat → α
  | 0 => 2
  | i + 1 => 2 - 1 / pivot i

/-- The right-hand side after forward substitution of the vector `b`. -/
def reduced_rhs {α : Type} [Field α] (b : Nat → α) : Nat → α
  | 0 => b 0
  | i + 1 => b (i + 1) + reduced_rhs b i / pivot i

/-! ## The exact solution of `algorithm_calculations.cpp` -/

/-- Function `exact_solution`: `return 1 - (1 - exp(-10))*x - exp(-10*x);`. -/
def exact_solution {α : Type} [Field α] (exp : α → α) (x : α) : α :=
  1 - (1 - exp (-10)) * x - exp (-10 * x)

/-! ## `gauss_legendre_points` of `gauss_laguerre_quadrature.cpp` -/

namespace GaussLegendre

variable {α : Type}

/-- Line 5: `double const pi = 3.14159265359;`. -/
def pi [Field α] : α :=
  314159265359 / 100000000000

/-- Line 14: `double const ZERO = std::pow(10, -10);`. -/
def ZERO [Field α] : α :=
  1 / 10 ^ 10

/-- The variables `p1`, `p2`, `p3` of the recurrence of lines 36-49. -/
structure Legendre (α : Type) where
  p1 : α
  p2 : α
  p3 : α

/-- Body of the loop of lines 44-49 for `j = j0 + 1`: `p3 = p2; p2 = p1;
p1 = ((2.0*j - 1.0)*z*p2 - (j - 1.0)*p3)/j`. -/
def legendre_body [Field α] (z : α) (j0 : Nat) (s : Legendre α) : Legendre α :=
  let j : α := ((j0 + 1 : Nat) : α)
  let p3 := s.p2
  let p2 := s.p1
  { p1 := ((2 * j - 1) * z * p2 - (j - 1) * p3) / j, p2 := p2, p3 := p3 }

/-- Lines 36-49: `p1 = 1.0; p2 = 0.0;` followed by the loop `j = 1, ..., n`
(`p3` is assigned before it is read). -/
def legendre [Field α] (n : Nat) (z : α) : Legendre α :=
  loopUp (legendre_body z) n ⟨1, 0, 0⟩

/-- Lines 34-61, the `do ... while` loop of Newton's method started at `z`, run
for at most `fuel` passes; the result is the pair `(z, pp)` the loop leaves.
One pass: `pp = n*(z*p1 - p2)/(z*z - 1.0); z1 = z; z = z1 - p1/pp;` and the
loop repeats while `fabs(z - z1) > ZERO`. -/
def newton_refine [LinearOrderedField α] (n : Nat) : Nat → α → Option (α × α)
  | 0, _ => none
  | fuel + 1, z =>
    let p := legendre n z
    let pp := (n : α) * (z * p.p1 - p.p2) / (z * z - 1)
    let z1 := z
    let z := z1 - p.p1 / pp
    if |z - z1| > ZERO then newton_refine n fuel z else some (z, pp)

/-- Line 27, the first approximation of root `i`:
`z = cos(pi*(i - 0.25)/(n + 0.5))`. -/
def initial_guess [Field α] (cos : α → α) (n i : Nat) : α :=
  cos (pi * ((i : α) - 1 / 4) / ((n : α) + 1 / 2))

/-- The output arrays `x`, `w` and the four running pointers of lines 20-23,
kept as offsets into the arrays (`x_high`, `w_high` are not read after their
last decrement). -/
structure QuadArrays (α : Type) where
  x : Nat → α
  w : Nat → α
  x_low : Nat
  x_high : Nat
  w_low : Nat
  w_high : Nat

/-- Lines 68-71: the four stores for one root `z` with derivative `pp`, in
source order. -/
def store_root [Field α] (xm xl z pp : α) (s : QuadArrays α) : QuadArrays α :=
  let s1 := { s with x := Function.update s.x s.x_low (xm - xl * z), x_low := s.x_low + 1 }
  let s2 := { s1 with
    x := Function.update s1.x s1.x_high (xm + xl * z), x_high := s1.x_high - 1 }
  let s3 := { s2 with w := Function.update s2.w s2.w_low (2 * xl / ((1 - z * z) * pp * pp)) }
  { s3 with
    w := Function.update s3.w s3.w_high (s3.w s3.w_low)
    w_high := s3.w_high - 1
    w_low := s3.w_low + 1 }

/-- Body of the loop of lines 25-72 for `i = i0 + 1`: first approximation,
Newton refinement, stores.  The pass yields `none` when the refinement does not
finish within `fuel` passes. -/
def root_body [LinearOrderedField α] (cos : α → α) (fuel n : Nat) (xm xl : α) (i0 : Nat)
    (s : Option (QuadArrays α)) : Option (QuadArrays α) :=
  s.bind fun s =>
    (newton_refine n fuel (initial_guess cos n (i0 + 1))).map fun r =>
      store_root xm xl r.1 r.2 s

/-- Function `gauss_legendre_points(x1, x2, x, w, n)`, lines 16-72, with the
incoming content of the arrays `x` and `w`; every Newton refinement may take at
most `fuel` passes. -/
def gauss_legendre_points [LinearOrderedField α] (cos : α → α) (fuel : Nat) (x1 x2 : α)
    (x w : Nat → α) (n : Nat) : Option (QuadArrays α) :=
  let m := (n + 1) / 2
  let xm := 1 / 2 * (x2 + x1)
  let xl := 1 / 2 * (x2 - x1)
  loopUp (root_body cos fuel n xm xl) m (some ⟨x, w, 0, n - 1, 0, n - 1⟩)

end GaussLegendre

/-! ## Theorems: the temperature partition -/

namespace ParallelEnergySolver

variable {α : Type}

theorem wrap_int_of_range (v : Int) (h0 : 0 ≤ v) (h1 : v < 2 ^ 31) : wrap_int v = v := by
  unfold wrap_int
  rw [Int.emod_eq_of_lt (by omega) (by omega)]
  omega

theorem temp_divisor_of_no_overflow (k W : Nat) (hk : 1 ≤ k) (h : (W + 1) * k < 2 ^ 31) :
    temp_divisor k W = (((W + 1) * k : Nat) : Int) := by
  have hW : W + 1 < 2 ^ 31 := by
    have : W + 1 ≤ (W + 1) * k := Nat.le_mul_of_pos_right _ hk
    omega
  unfold temp_divisor
  rw [wrap_int_of_range ((W : Int) + 1) (by omega) (by exact_mod_cast hW)]
  rw [wrap_int_of_range _ (by positivity) (by exact_mod_cast h)]
  push_cast
  ring

theorem temp_divisor_pos_of_no_overflow (k W : Nat) (hk : 1 ≤ k) (h : (W + 1) * k < 2 ^ 31) :
    0 < temp_divisor k W := by
  rw [temp_divisor_of_no_overflow k W hk h]
  have : 0 < (W + 1) * k := Nat.mul_pos (Nat.succ_pos W) hk
  exact_mod_cast this

theorem diff_temp_of_ne_zero [Field α] (initial_temp final_temp : α) (k W : Nat)
    (hd : temp_divisor k W ≠ 0) :
    diff_temp initial_temp final_temp k W =
      some ((final_temp - initial_temp) / ((temp_divisor k W : Int) : α)) := by
  simp [diff_temp, hd]

theorem init_temp_of_ne_zero [Field α] (initial_temp final_temp : α) (k W r : Nat)
    (hd : temp_divisor k W ≠ 0) :
    init_temp initial_temp final_temp k W r =
      some (initial_temp +
        (final_temp - initial_temp) / ((temp_divisor k W : Int) : α) * (k : α) * (r : α)) := by
  simp [init_temp, diff_temp, hd]

theorem fin_temp_of_ne_zero [Field α] (initial_temp final_temp : α) (k W r : Nat)
    (hd : temp_divisor k W ≠ 0) :
    fin_temp initial_temp final_temp k W r =
      some (initial_temp +
        (final_temp - initial_temp) / ((temp_divisor k W : Int) : α) * (k : α) *
          ((r + 1 : Nat) : α)) := by
  simp [fin_temp, diff_temp, hd]

theorem temp_of_ne_zero [Field α] (initial_temp final_temp : α) (k W r j : Nat)
    (hd : temp_divisor k W ≠ 0) :
    temp initial_temp final_temp k W r j =
      some (initial_temp +
        (final_temp - initial_temp) / ((temp_divisor k W : Int) : α) * (k : α) * (r : α) +
        (final_temp - initial_temp) / ((temp_divisor k W : Int) : α) * (j : α)) := by
  simp [temp, init_temp, diff_temp, hd]

theorem diff_temp_pos [LinearOrderedField α] (initial_temp final_temp : α) (k W : Nat)
    (hT : initial_temp < final_temp) (hd : 0 < temp_divisor k W) :
    0 < (final_temp - initial_temp) / ((temp_divisor k W : Int) : α) :=
  div_pos (sub_pos.mpr hT) (by exact_mod_cast hd)

theorem temp_divisor_main : temp_divisor 10 2 = 30 ∧ temp_divisor (2 * 10) 1 = 40 := by
  constructor <;> decide

theorem fin_temp_last_rank_lt_final [LinearOrderedField α] (initial_temp final_temp : α)
    (k W : Nat) (hT : initial_temp < final_temp) (hk : 1 ≤ k) (hW : 1 ≤ W)
    (h : (W + 1) * k < 2 ^ 31) :
    ∃ t, fin_temp initial_temp final_temp k W (W - 1) = some t ∧ t < final_temp := by
  have hkα : (0 : α) < (k : α) := by exact_mod_cast hk
  have hWα : (0 : α) < (W : α) := by exact_mod_cast hW
  have hidx : W - 1 + 1 = W := by omega
  have hdiv := temp_divisor_of_no_overflow k W hk h
  have hne : temp_divisor k W ≠ 0 := ne_of_gt (temp_divisor_pos_of_no_overflow k W hk h)
  refine ⟨_, fin_temp_of_ne_zero initial_temp final_temp k W (W - 1) hne, ?_⟩
  have hval : initial_temp + (final_temp - initial_temp) / ((temp_divisor k W : Int) : α) *
      (k : α) * ((W - 1 + 1 : Nat) : α) =
      initial_temp + (final_temp - initial_temp) * ((W : α) / ((W : α) + 1)) := by
    rw [hidx, hdiv]
    push_cast
    field_simp
    ring
  have hfrac : (W : α) / ((W : α) + 1) < 1 := by
    rw [div_lt_one (by linarith)]
    linarith
  have hgap : (0 : α) < final_temp - initial_temp := sub_pos.mpr hT
  rw [hval]
  have hmul := mul_lt_mul_of_pos_left hfrac hgap
  linarith

theorem temp_last_eq_next_first [Field α] (initial_temp final_temp : α) (k W r : Nat) :
    temp initial_temp final_temp k W r k = temp initial_temp final_temp k W (r + 1) 0 := by
  by_cases hd : temp_divisor k W = 0
  · simp [temp, init_temp, diff_temp, hd]
  · rw [temp_of_ne_zero _ _ _ _ _ _ hd, temp_of_ne_zero _ _ _ _ _ _ hd, Option.some.injEq]
    push_cast
    ring

/-- C1 (the code at a failing input): with the values of `main`
(`initial_temp = 0.5`, `final_temp = 2`, 10 steps) and two processes, rank 0
starts at `initial_temp`, but the last rank's `fin_temp` is `1.5`, not
`final_temp = 2`. -/
theorem fin_temp_last_rank_main :
    init_temp (1 / 2 : ℚ) 2 10 2 0 = some (1 / 2) ∧
      fin_temp (1 / 2 : ℚ) 2 10 2 1 = some (3 / 2) ∧
      fin_temp (1 / 2 : ℚ) 2 10 2 1 ≠ some 2 := by
  have hd : temp_divisor 10 2 = 30 := temp_divisor_main.1
  norm_num [init_temp, fin_temp, diff_temp, hd]

/-- C2 (the claim fails where the divisor wraps to zero): for `world_size = 3`
and `k = 2^30` the `int` product `(3 + 1)*2^30 = 2^32` of line 22 wraps to `0`,
so the division has no value and neither have `init_temp` and `fin_temp` of
rank 0. -/
theorem partition_undefined_at_zero_divisor :
    ((0 : ℚ) < 1 ∧ 1 ≤ 2 ^ 30 ∧ 1 ≤ 3) ∧ temp_divisor (2 ^ 30) 3 = 0 ∧
      init_temp (0 : ℚ) 1 (2 ^ 30) 3 0 = none ∧ fin_temp (0 : ℚ) 1 (2 ^ 30) 3 0 = none := by
  have hd : temp_divisor (2 ^ 30) 3 = 0 := by decide
  refine ⟨⟨by norm_num, by norm_num, by norm_num⟩, hd, ?_, ?_⟩
  · rw [init_temp, diff_temp, if_pos hd]
    rfl
  · rw [fin_temp, diff_temp, if_pos hd]
    rfl

/-- C2 (amended): in exact real arithmetic, for `initial_temp < final_temp`,
`k >= 1` and `W >= 1` for which the `int` divisor of line 22 is not `0`, the
bounds of every rank have a value, the sub-intervals of ranks `0..W-1` are
contiguous (`fin_temp(r) = init_temp(r+1)` for `r < W-1`) and of one common
width `diff_temp*k`: `init_temp(r) = initial_temp + r*width` and
`fin_temp(r) - init_temp(r) = width` for every rank `r < W`. -/
theorem partition_contiguous_equal_width [LinearOrderedField α] (initial_temp final_temp : α)
    (k W : Nat) (_hT : initial_temp < final_temp) (_hk : 1 ≤ k) (_hW : 1 ≤ W)
    (hd : temp_divisor k W ≠ 0) :
    ∃ d, diff_temp initial_temp final_temp k W = some d ∧
    (∀ r, r < W - 1 →
      fin_temp initial_temp final_temp k W r = init_temp initial_temp final_temp k W (r + 1)) ∧
    (∀ r, r < W → ∃ a b,
      init_temp initial_temp final_temp k W r = some a ∧
      fin_temp initial_temp final_temp k W r = some b ∧
      a = initial_temp + (r : α) * (d * (k : α)) ∧
      b - a = d * (k : α)) := by
  refine ⟨_, diff_temp_of_ne_zero initial_temp final_temp k W hd, ?_, ?_⟩
  · intro r _
    simp only [fin_temp, init_temp]
  · intro r _
    refine ⟨_, _, init_temp_of_ne_zero initial_temp final_temp k W r hd,
      fin_temp_of_ne_zero initial_temp final_temp k W r hd, ?_, ?_⟩
    · ring
    · push_cast
      ring

theorem partition_contiguous_equal_width_witness :
    ((1 / 2 : ℚ) < 2 ∧ 1 ≤ 10 ∧ 1 ≤ 2 ∧ temp_divisor 10 2 ≠ 0) ∧
    ∃ d, diff_temp (1 / 2 : ℚ) 2 10 2 = some d ∧
    (∀ r, r < 2 - 1 →
      fin_temp (1 / 2 : ℚ) 2 10 2 r = init_temp (1 / 2 : ℚ) 2 10 2 (r + 1)) ∧
    (∀ r, r < 2 → ∃ a b,
      init_temp (1 / 2 : ℚ) 2 10 2 r = some a ∧
      fin_temp (1 / 2 : ℚ) 2 10 2 r = some b ∧
      a = 1 / 2 + (r : ℚ) * (d * ((10 : Nat) : ℚ)) ∧
      b - a = d * ((10 : Nat) : ℚ)) :=
  ⟨⟨by norm_num, by decide, by decide, by decide⟩,
    partition_contiguous_equal_width (1 / 2 : ℚ) 2 10 2 (by norm_num) (by decide) (by decide)
      (by decide)⟩

/-- C3 (the code at a failing input): with the values of `main` and two
processes, the temperature `1` is visited by rank 0 (its last step, `j = 10`)
and by rank 1 (its first step, `j = 0`). -/
theorem visited_shared_between_ranks :
    some (1 : ℚ) ∈ visited (1 / 2 : ℚ) 2 10 2 0 ∧
      some (1 : ℚ) ∈ visited (1 / 2 : ℚ) 2 10 2 1 := by
  have hd : temp_divisor 10 2 = 30 := temp_divisor_main.1
  constructor
  · exact List.mem_map.mpr ⟨10, by simp, by norm_num [temp, init_temp, diff_temp, hd]⟩
  · exact List.mem_map.mpr ⟨0, by simp, by norm_num [temp, init_temp, diff_temp, hd]⟩

/-- C4 (the code at a failing input): with the values of `main`, the two-process
run (10 steps per rank) visits the temperature `3/2`, which the one-process run
over the same range with `2*10` steps never visits. -/
theorem visited_all_differs_from_single_run :
    some (3 / 2 : ℚ) ∈ visited_all (1 / 2 : ℚ) 2 10 2 ∧
      some (3 / 2 : ℚ) ∉ visited_all (1 / 2 : ℚ) 2 (2 * 10) 1 := by
  have hd : temp_divisor 10 2 = 30 := temp_divisor_main.1
  have hd1 : temp_divisor (2 * 10) 1 = 40 := temp_divisor_main.2
  constructor
  · refine List.mem_flatMap.mpr ⟨1, by simp, ?_⟩
    exact List.mem_map.mpr ⟨10, by simp, by norm_num [temp, init_temp, diff_temp, hd]⟩
  · intro h
    obtain ⟨r, hr, hmem⟩ := List.mem_flatMap.mp h
    obtain ⟨j, hj, hval⟩ := List.mem_map.mp hmem
    have hr0 : r = 0 := by simpa using hr
    subst hr0
    have hj20 : j < 21 := by simpa using hj
    have hjq : (j : ℚ) ≤ 20 := by exact_mod_cast Nat.lt_succ_iff.mp hj20
    norm_num [temp, init_temp, diff_temp, hd1] at hval
    linarith

/-- C7 (the claim fails where the divisor wraps to a negative value): for
`world_size = 1023` and `k = 2^21` the `int` product `1024*2^21 = 2^31` of
line 22 wraps to `-2^31`; on the range `0 .. 2^31` this gives
`diff_temp = -1`, so rank 0 visits `0` and then `-1`. -/
theorem temp_decreasing_at_negative_divisor :
    ((0 : ℚ) < 2 ^ 31 ∧ 1 ≤ 2 ^ 21 ∧ 1 ≤ 1023 ∧ 0 < 1023 ∧ 0 < 2 ^ 21) ∧
      temp (0 : ℚ) (2 ^ 31) (2 ^ 21) 1023 0 0 = some 0 ∧
      temp (0 : ℚ) (2 ^ 31) (2 ^ 21) 1023 0 (0 + 1) = some (-1) ∧
      ¬ ((0 : ℚ) < -1) := by
  have hd : temp_divisor (2 ^ 21) 1023 = -2 ^ 31 := by decide
  have hne : temp_divisor (2 ^ 21) 1023 ≠ 0 := by decide
  refine ⟨⟨by norm_num, by norm_num, by norm_num, by norm_num, by norm_num⟩, ?_, ?_,
    by norm_num⟩
  · rw [temp_of_ne_zero _ _ _ _ _ _ hne, hd]
    norm_num
  · rw [temp_of_ne_zero _ _ _ _ _ _ hne, hd]
    norm_num

/-- C7 (amended): in exact real arithmetic, for `initial_temp < final_temp`,
`k >= 1`, `W >= 1` for which the `int` divisor of line 22 is positive, and a
rank `r < W`, the temperatures `temp_j = init_temp(r) + diff_temp*j` of the loop
have values and increase strictly: `temp_j < temp_(j+1)` for every `j < k`. -/
theorem temp_strictly_increasing [LinearOrderedField α] (initial_temp final_temp : α)
    (k W r : Nat) (hT : initial_temp < final_temp) (_hk : 1 ≤ k) (_hW : 1 ≤ W) (_hr : r < W)
    (hd : 0 < temp_divisor k W) :
    ∀ j, j < k → ∃ a b,
      temp initial_temp final_temp k W r j = some a ∧
      temp initial_temp final_temp k W r (j + 1) = some b ∧ a < b := by
  intro j _
  have hne : temp_divisor k W ≠ 0 := ne_of_gt hd
  have hpos := diff_temp_pos initial_temp final_temp k W hT hd
  refine ⟨_, _, temp_of_ne_zero initial_temp final_temp k W r j hne,
    temp_of_ne_zero initial_temp final_temp k W r (j + 1) hne, ?_⟩
  push_cast
  linarith

theorem temp_strictly_increasing_witness :
    ((1 / 2 : ℚ) < 2 ∧ 1 ≤ 10 ∧ 1 ≤ 2 ∧ 1 < 2 ∧ 0 < temp_divisor 10 2) ∧
      ∀ j, j < 10 → ∃ a b,
        temp (1 / 2 : ℚ) 2 10 2 1 j = some a ∧
        temp (1 / 2 : ℚ) 2 10 2 1 (j + 1) = some b ∧ a < b :=
  ⟨⟨by norm_num, by decide, by decide, by decide, by decide⟩,
    temp_strictly_increasing (1 / 2 : ℚ) 2 10 2 1 (by norm_num) (by decide) (by decide)
      (by decide) (by decide)⟩

/-- C5 (the code at a failing input): on rank 0 with `k = 1` the two loop
iterations `0` and `1` write the same slot; the loop ends with cell 0 of the
energy array holding the sum of iteration 1, and no cell holds the sum of
iteration 0. -/
theorem stored_results_rank_zero_overwrites :
    slot 0 0 = slot 0 1 ∧
    ∃ res, stored_results 0 1 (fun j => (⟨(j : Int) + 5, 0, 0, 0, 0⟩ : Sums Int)) = some res ∧
      res.sum_total_energy_array 0 = some 6 ∧
      ∀ i, res.sum_total_energy_array i ≠ some 5 := by
  refine ⟨rfl, _, rfl, ?_, ?_⟩
  · simp [slot]
  · intro i
    by_cases hi : i = 0
    · subst hi
      simp [slot]
    · simp [slot, Function.update, hi, fresh_results]

/-- C6: for `J > 0` and `T > 0`, rebuilding the table over the reals changes
exactly the positions 0, 4, 8, 12, 16; the entry at such a position `p` is
`exp(-dE/T)` for `dE = (p - 8)*J`; the entry for `dE = 0` is `1` and the entry
for `dE = +8J` is the reciprocal of the entry for `dE = -8J`. -/
theorem rebuild_exp_delta_energy_table (J T : ℝ) (_hJ : 0 < J) (_hT : 0 < T)
    (old : Nat → ℝ) :
    (∀ p, p ∉ [0, 4, 8, 12, 16] → rebuild_exp_delta_energy Real.exp J T old p = old p) ∧
    (∀ p, p ∈ [0, 4, 8, 12, 16] →
      rebuild_exp_delta_energy Real.exp J T old p = Real.exp (-(((p : ℝ) - 8) * J) / T)) ∧
    rebuild_exp_delta_energy Real.exp J T old 8 = 1 ∧
    rebuild_exp_delta_energy Real.exp J T old 16 =
      1 / rebuild_exp_delta_energy Real.exp J T old 0 := by
  have e0 : rebuild_exp_delta_energy Real.exp J T old 0 = Real.exp (8 * J / T) := by
    simp [rebuild_exp_delta_energy, Function.update]
  have e4 : rebuild_exp_delta_energy Real.exp J T old 4 = Real.exp (4 * J / T) := by
    simp [rebuild_exp_delta_energy, Function.update]
  have e8 : rebuild_exp_delta_energy Real.exp J T old 8 = 1 := by
    simp [rebuild_exp_delta_energy, Function.update]
  have e12 : rebuild_exp_delta_energy Real.exp J T old 12 = Real.exp (-4 * J / T) := by
    simp [rebuild_exp_delta_energy, Function.update]
  have e16 : rebuild_exp_delta_energy Real.exp J T old 16 = Real.exp (-8 * J / T) := by
    simp [rebuild_exp_delta_energy, Function.update]
  refine ⟨?_, ?_, e8, ?_⟩
  · intro p hp
    simp only [List.mem_cons, List.mem_singleton, List.not_mem_nil, or_false, not_or] at hp
    obtain ⟨h0, h4, h8, h12, h16⟩ := hp
    simp [rebuild_exp_delta_energy, Function.update, h0, h4, h8, h12, h16]
  · intro p hp
    simp only [List.mem_cons, List.mem_singleton, List.not_mem_nil, or_false] at hp
    rcases hp with rfl | rfl | rfl | rfl | rfl
    · rw [e0]
      congr 1
      push_cast
      ring
    · rw [e4]
      congr 1
      push_cast
      ring
    · rw [e8]
      norm_num
    · rw [e12]
      congr 1
      push_cast
      ring
    · rw [e16]
      congr 1
      push_cast
      ring
  · rw [e16, e0, one_div, ← Real.exp_neg]
    congr 1
    ring

theorem rebuild_exp_delta_energy_table_witness :
    ((0 : ℝ) < 1 ∧ (0 : ℝ) < 2) ∧
    (∀ p, p ∉ [0, 4, 8, 12, 16] →
      rebuild_exp_delta_energy Real.exp 1 2 (fun _ => 0) p = (fun _ => (0 : ℝ)) p) ∧
    (∀ p, p ∈ [0, 4, 8, 12, 16] →
      rebuild_exp_delta_energy Real.exp 1 2 (fun _ => 0) p =
        Real.exp (-(((p : ℝ) - 8) * 1) / 2)) ∧
    rebuild_exp_delta_energy Real.exp 1 2 (fun _ => 0) 8 = 1 ∧
    rebuild_exp_delta_energy Real.exp 1 2 (fun _ => 0) 16 =
      1 / rebuild_exp_delta_energy Real.exp 1 2 (fun _ => 0) 0 :=
  ⟨⟨by norm_num, by norm_num⟩,
    rebuild_exp_delta_energy_table 1 2 (by norm_num) (by norm_num) (fun _ => 0)⟩

end ParallelEnergySolver

/-! ## Theorems: `CircularMatrix` -/

namespace CircularMatrix

theorem size_construct (coin : Int → Nat → Bool) (n : Nat) (seed : Int) :
    (construct coin n seed).matrix.size = n * n := by
  simp [construct]

theorem dim_ordered_spin (q : CircularMatrix) : q.ordered_spin.dim = q.dim := rfl

theorem size_ordered_spin (q : CircularMatrix) :
    q.ordered_spin.matrix.size = q.matrix.size := by
  simp [ordered_spin]

theorem site_index_lt (n i j : Nat) (hi : i < n) (hj : j < n) : i * n + j < n * n := by
  have h1 : (i + 1) * n ≤ n * n := Nat.mul_le_mul_right n hi
  have h2 : (i + 1) * n = i * n + n := by ring
  omega

theorem get_ordered_spin_of_lt (q : CircularMatrix) (i j : Nat)
    (hsize : q.matrix.size = q.dim * q.dim) (hi : i < q.dim) (hj : j < q.dim) :
    q.ordered_spin.get (i : Int) (j : Int) = 1 := by
  have hi' : ((i : Int) % (q.dim : Int)).toNat = i := by
    rw [Int.emod_eq_of_lt (by omega) (by exact_mod_cast hi)]
    simp
  have hj' : ((j : Int) % (q.dim : Int)).toNat = j := by
    rw [Int.emod_eq_of_lt (by omega) (by exact_mod_cast hj)]
    simp
  have hlt : i * q.dim + j < q.matrix.size := by
    rw [hsize]
    exact site_index_lt q.dim i j hi hj
  unfold get
  rw [dim_ordered_spin, hi', hj']
  simp [Array.getD, hlt, ordered_spin]

/-- C8: for every dimension `n >= 1` and every seed, after
`CircularMatrix(n, seed)` and `ordered_spin()`, `q(i, j) == 1` for all
`0 <= i < n` and `0 <= j < n`. -/
theorem ordered_spin_all_spin_up (coin : Int → Nat → Bool) (n : Nat) (seed : Int)
    (_hn : 1 ≤ n) :
    ∀ i j : Nat, i < n → j < n →
      (construct coin n seed).ordered_spin.get (i : Int) (j : Int) = 1 := by
  intro i j hi hj
  exact get_ordered_spin_of_lt (construct coin n seed) i j (size_construct coin n seed) hi hj

theorem ordered_spin_all_spin_up_witness :
    1 ≤ 2 ∧ ∀ i j : Nat, i < 2 → j < 2 →
      (construct (fun s idx => (s + idx) % 2 = 0) 2 1337).ordered_spin.get (i : Int) (j : Int)
        = 1 :=
  ⟨by decide, ordered_spin_all_spin_up (fun s idx => (s + idx) % 2 = 0) 2 1337 (by decide)⟩

end CircularMatrix

/-! ## Theorems: the tridiagonal solvers -/

section Loops

variable {σ : Type}

theorem loopUp_succ (body : Nat → σ → σ) (m : Nat) (s : σ) :
    loopUp body (m + 1) s = body m (loopUp body m s) := rfl

theorem loopDown_succ (body : Nat → σ → σ) (m : Nat) (s : σ) :
    loopDown body (m + 1) s = loopDown body m (body (m + 1) s) := rfl

end Loops

namespace ThomasArrays

variable {α : Type} [Field α]

theorem loopUp_rhs_body (exp : α → α) (h : α) (s : ThomasArrays α) (m : Nat) :
    (loopUp (rhs_body exp h) m s).lower_diag = s.lower_diag ∧
    (loopUp (rhs_body exp h) m s).diag = s.diag ∧
    (loopUp (rhs_body exp h) m s).upper_diag = s.upper_diag ∧
    (loopUp (rhs_body exp h) m s).computed = s.computed ∧
    ∀ j, (loopUp (rhs_body exp h) m s).rhs_val j =
      if j < m then rhs_func exp (h * ((j + 1 : Nat) : α)) * (h * h) else s.rhs_val j := by
  induction m with
  | zero => simp [loopUp]
  | succ m ih =>
    obtain ⟨h1, h2, h3, h4, h5⟩ := ih
    rw [loopUp_succ]
    refine ⟨h1, h2, h3, h4, ?_⟩
    intro j
    simp only [rhs_body, Function.update_apply, h5]
    by_cases hj : j = m
    · subst hj
      simp
    · have : j < m + 1 ↔ j < m := by omega
      simp [hj, this]

theorem loopUp_diagonals_body (s : ThomasArrays α) (m : Nat) :
    (loopUp diagonals_body m s).rhs_val = s.rhs_val ∧
    (loopUp diagonals_body m s).computed = s.computed ∧
    ∀ j, ((loopUp diagonals_body m s).lower_diag j = if j < m then -1 else s.lower_diag j) ∧
      ((loopUp diagonals_body m s).diag j = if j < m then 2 else s.diag j) ∧
      ((loopUp diagonals_body m s).upper_diag j = if j < m then -1 else s.upper_diag j) := by
  induction m with
  | zero => simp [loopUp]
  | succ m ih =>
    obtain ⟨h1, h2, h3⟩ := ih
    rw [loopUp_succ]
    refine ⟨h1, h2, ?_⟩
    intro j
    obtain ⟨hl, hd, hu⟩ := h3 j
    simp only [diagonals_body, Function.update_apply, hl, hd, hu]
    by_cases hj : j = m
    · subst hj
      simp
    · have : j < m + 1 ↔ j < m := by omega
      simp [hj, this]

theorem loopUp_forward_body (b : Nat → α) (N : Nat) (s : ThomasArrays α)
    (hl : ∀ j, j < N → s.lower_diag j = -1) (hu : ∀ j, j < N → s.upper_diag j = -1)
    (hd : ∀ j, j ≤ N → s.diag j = 2) (hr : ∀ j, j ≤ N → s.rhs_val j = b j) (m : Nat)
    (hm : m ≤ N) :
    (loopUp forward_body m s).lower_diag = s.lower_diag ∧
    (loopUp forward_body m s).upper_diag = s.upper_diag ∧
    (loopUp forward_body m s).computed = s.computed ∧
    (∀ j, j ≤ m → (loopUp forward_body m s).diag j = pivot j ∧
      (loopUp forward_body m s).rhs_val j = reduced_rhs b j) ∧
    (∀ j, m < j → (loopUp forward_body m s).diag j = s.diag j ∧
      (loopUp forward_body m s).rhs_val j = s.rhs_val j) := by
  induction m with
  | zero =>
    refine ⟨rfl, rfl, rfl, ?_, fun j _ => ⟨rfl, rfl⟩⟩
    intro j hj
    have hj0 : j = 0 := by omega
    subst hj0
    exact ⟨by simpa [loopUp, pivot] using hd 0 (Nat.zero_le N),
      by simpa [loopUp, reduced_rhs] using hr 0 (Nat.zero_le N)⟩
  | succ m ih =>
    obtain ⟨h1, h2, h3, h4, h5⟩ := ih (by omega)
    rw [loopUp_succ]
    have hlm : (loopUp forward_body m s).lower_diag m = -1 := by rw [h1]; exact hl m (by omega)
    have hum : (loopUp forward_body m s).upper_diag m = -1 := by rw [h2]; exact hu m (by omega)
    have hdm : (loopUp forward_body m s).diag m = pivot m := (h4 m (le_refl m)).1
    have hrm : (loopUp forward_body m s).rhs_val m = reduced_rhs b m := (h4 m (le_refl m)).2
    have hdn : (loopUp forward_body m s).diag (m + 1) = 2 := by
      rw [(h5 (m + 1) (by omega)).1]; exact hd (m + 1) hm
    have hrn : (loopUp forward_body m s).rhs_val (m + 1) = b (m + 1) := by
      rw [(h5 (m + 1) (by omega)).2]; exact hr (m + 1) hm
    refine ⟨h1, h2, h3, ?_, ?_⟩
    · intro j hj
      by_cases hjm : j = m + 1
      · subst hjm
        constructor
        · simp only [forward_body, Function.update_same, hlm, hum, hdm, hdn, pivot]
          ring
        · have hne : m ≠ m + 1 := by omega
          simp only [forward_body, Function.update_same, Function.update_noteq hne, hlm, hdm,
            hrm, hrn, reduced_rhs]
          ring
      · have hle : j ≤ m := by omega
        simp only [forward_body, Function.update_noteq hjm]
        exact h4 j hle
    · intro j hj
      have hjm : j ≠ m + 1 := by omega
      simp only [forward_body, Function.update_noteq hjm]
      exact h5 j (by omega)

theorem loopDown_backward_body (m : Nat) (s : ThomasArrays α) :
    (loopDown backward_body m s).lower_diag = s.lower_diag ∧
    (loopDown backward_body m s).diag = s.diag ∧
    (loopDown backward_body m s).upper_diag = s.upper_diag ∧
    (loopDown backward_body m s).rhs_val = s.rhs_val ∧
    (∀ j, m ≤ j → (loopDown backward_body m s).computed j = s.computed j) ∧
    (∀ i, 1 ≤ i → i ≤ m → (loopDown backward_body m s).computed (i - 1) =
      (s.rhs_val (i - 1) - s.upper_diag (i - 1) * (loopDown backward_body m s).computed i) /
        s.diag (i - 1)) := by
  induction m generalizing s with
  | zero =>
    refine ⟨rfl, rfl, rfl, rfl, fun j _ => rfl, ?_⟩
    intro i h1 h0
    omega
  | succ m ih =>
    obtain ⟨h1, h2, h3, h4, h5, h6⟩ := ih (backward_body (m + 1) s)
    rw [loopDown_succ]
    refine ⟨h1, h2, h3, h4, ?_, ?_⟩
    · intro j hj
      rw [h5 j (by omega)]
      have hne : j ≠ m + 1 - 1 := by omega
      simp only [backward_body, Function.update_noteq hne]
    · intro i hi1 him
      by_cases hi : i = m + 1
      · subst hi
        rw [h5 (m + 1 - 1) (by omega), h5 (m + 1) (by omega)]
        have hne : m + 1 ≠ m + 1 - 1 := by omega
        simp only [backward_body, Function.update_same, Function.update_noteq hne]
      · have := h6 i hi1 (by omega)
        simpa [backward_body] using this

end ThomasArrays

section General

variable {α : Type} [Field α]

theorem thomas_algorithm_recurrence (exp : α → α) (n : Nat) (hn : 1 ≤ n) :
    thomas_algorithm exp n (n - 1) =
      reduced_rhs (rhs_entry exp n) (n - 1) / pivot (n - 1) ∧
    ∀ i, 1 ≤ i → i ≤ n - 1 →
      thomas_algorithm exp n (i - 1) =
        (reduced_rhs (rhs_entry exp n) (i - 1) + thomas_algorithm exp n i) / pivot (i - 1) := by
  simp only [thomas_algorithm]
  obtain ⟨_, _, _, _, a5⟩ :=
    ThomasArrays.loopUp_rhs_body exp (1 / ((n + 1 : Nat) : α)) (ThomasArrays.fresh : ThomasArrays α) n
  generalize loopUp (ThomasArrays.rhs_body exp (1 / ((n + 1 : Nat) : α))) n
    (ThomasArrays.fresh : ThomasArrays α) = s1 at *
  obtain ⟨b1, _, b3⟩ := ThomasArrays.loopUp_diagonals_body s1 (n - 1)
  generalize loopUp ThomasArrays.diagonals_body (n - 1) s1 = s2 at *
  have hl : ∀ j, j < n - 1 → s2.lower_diag j = -1 := fun j hj => by
    rw [(b3 j).1, if_pos hj]
  have hu : ∀ j, j < n - 1 → s2.upper_diag j = -1 := fun j hj => by
    rw [(b3 j).2.2, if_pos hj]
  have hd : ∀ j, j ≤ n - 1 → Function.update s2.diag (n - 1) 2 j = 2 := fun j hj => by
    by_cases h : j = n - 1
    · rw [h, Function.update_same]
    · rw [Function.update_noteq h, (b3 j).2.1, if_pos (by omega)]
  have hr : ∀ j, j ≤ n - 1 → s2.rhs_val j = rhs_entry exp n j := fun j hj => by
    rw [b1, a5 j, if_pos (by omega)]
    rfl
  obtain ⟨_, c2, _, c4, _⟩ := ThomasArrays.loopUp_forward_body (rhs_entry exp n) (n - 1)
    { s2 with diag := Function.update s2.diag (n - 1) 2 } hl hu hd hr (n - 1) (le_refl _)
  generalize loopUp ThomasArrays.forward_body (n - 1)
    { s2 with diag := Function.update s2.diag (n - 1) 2 } = s4 at *
  obtain ⟨_, d2, d3, d4, d5, d6⟩ := ThomasArrays.loopDown_backward_body (n - 1)
    { s4 with
      computed := Function.update s4.computed (n - 1) (s4.rhs_val (n - 1) / s4.diag (n - 1)) }
  generalize loopDown ThomasArrays.backward_body (n - 1)
    { s4 with
      computed := Function.update s4.computed (n - 1) (s4.rhs_val (n - 1) / s4.diag (n - 1)) }
    = s6 at *
  simp only at c2 d2 d3 d4 d5 d6
  constructor
  · rw [d5 (n - 1) (le_refl _), Function.update_same, (c4 (n - 1) (le_refl _)).1,
      (c4 (n - 1) (le_refl _)).2]
  · intro i hi1 hin
    rw [d6 i hi1 hin, (c4 (i - 1) (by omega)).1, (c4 (i - 1) (by omega)).2, c2,
      hu (i - 1) (by omega)]
    ring

end General

namespace SpecialArrays

variable {α : Type} [Field α]

theorem special_loopUp_rhs_body (exp : α → α) (h : α) (s : SpecialArrays α) (m : Nat) :
    (loopUp (rhs_body exp h) m s).diag = s.diag ∧
    (loopUp (rhs_body exp h) m s).computed = s.computed ∧
    ∀ j, (loopUp (rhs_body exp h) m s).rhs_val j =
      if j < m then rhs_func exp (h * ((j + 1 : Nat) : α)) * (h * h) else s.rhs_val j := by
  induction m with
  | zero => simp [loopUp]
  | succ m ih =>
    obtain ⟨h1, h2, h3⟩ := ih
    rw [loopUp_succ]
    refine ⟨h1, h2, ?_⟩
    intro j
    simp only [rhs_body, Function.update_apply, h3]
    by_cases hj : j = m
    · subst hj
      simp
    · have : j < m + 1 ↔ j < m := by omega
      simp [hj, this]

theorem loopUp_diag_body (s : SpecialArrays α) (m : Nat) :
    (loopUp diag_body m s).rhs_val = s.rhs_val ∧
    (loopUp diag_body m s).computed = s.computed ∧
    ∀ j, (loopUp diag_body m s).diag j = if j < m then 2 else s.diag j := by
  induction m with
  | zero => simp [loopUp]
  | succ m ih =>
    obtain ⟨h1, h2, h3⟩ := ih
    rw [loopUp_succ]
    refine ⟨h1, h2, ?_⟩
    intro j
    simp only [diag_body, Function.update_apply, h3]
    by_cases hj : j = m
    · subst hj
      simp
    · have : j < m + 1 ↔ j < m := by omega
      simp [hj, this]

theorem loopUp_diag_forward_body (N : Nat) (s : SpecialArrays α)
    (hd : ∀ j, j ≤ N → s.diag j = 2) (m : Nat) (hm : m ≤ N) :
    (loopUp diag_forward_body m s).rhs_val = s.rhs_val ∧
    (loopUp diag_forward_body m s).computed = s.computed ∧
    (∀ j, j ≤ m → (loopUp diag_forward_body m s).diag j = pivot j) ∧
    (∀ j, m < j → (loopUp diag_forward_body m s).diag j = s.diag j) := by
  induction m with
  | zero =>
    refine ⟨rfl, rfl, ?_, fun j _ => rfl⟩
    intro j hj
    have hj0 : j = 0 := by omega
    subst hj0
    simpa [loopUp, pivot] using hd 0 (Nat.zero_le N)
  | succ m ih =>
    obtain ⟨h1, h2, h3, h4⟩ := ih (by omega)
    rw [loopUp_succ]
    refine ⟨h1, h2, ?_, ?_⟩
    · intro j hj
      by_cases hjm : j = m + 1
      · subst hjm
        simp only [diag_forward_body, Function.update_same, h3 m (le_refl m), pivot]
      · simp only [diag_forward_body, Function.update_noteq hjm]
        exact h3 j (by omega)
    · intro j hj
      have hjm : j ≠ m + 1 := by omega
      simp only [diag_forward_body, Function.update_noteq hjm]
      exact h4 j (by omega)

theorem loopUp_rhs_forward_body (b : Nat → α) (N : Nat) (s : SpecialArrays α)
    (hd : ∀ j, j ≤ N → s.diag j = pivot j) (hr : ∀ j, j ≤ N → s.rhs_val j = b j) (m : Nat)
    (hm : m ≤ N) :
    (loopUp rhs_forward_body m s).diag = s.diag ∧
    (loopUp rhs_forward_body m s).computed = s.computed ∧
    (∀ j, j ≤ m → (loopUp rhs_forward_body m s).rhs_val j = reduced_rhs b j) ∧
    (∀ j, m < j → (loopUp rhs_forward_body m s).rhs_val j = s.rhs_val j) := by
  induction m with
  | zero =>
    refine ⟨rfl, rfl, ?_, fun j _ => rfl⟩
    intro j hj
    have hj0 : j = 0 := by omega
    subst hj0
    simpa [loopUp, reduced_rhs] using hr 0 (Nat.zero_le N)
  | succ m ih =>
    obtain ⟨h1, h2, h3, h4⟩ := ih (by omega)
    rw [loopUp_succ]
    refine ⟨h1, h2, ?_, ?_⟩
    · intro j hj
      by_cases hjm : j = m + 1
      · subst hjm
        simp only [rhs_forward_body, Function.update_same, h3 m (le_refl m), h1,
          hd m (by omega), h4 (m + 1) (by omega), hr (m + 1) hm, reduced_rhs]
      · simp only [rhs_forward_body, Function.update_noteq hjm]
        exact h3 j (by omega)
    · intro j hj
      have hjm : j ≠ m + 1 := by omega
      simp only [rhs_forward_body, Function.update_noteq hjm]
      exact h4 j (by omega)

theorem special_loopDown_backward_body (m : Nat) (s : SpecialArrays α) :
    (loopDown backward_body m s).diag = s.diag ∧
    (loopDown backward_body m s).rhs_val = s.rhs_val ∧
    (∀ j, m ≤ j → (loopDown backward_body m s).computed j = s.computed j) ∧
    (∀ i, 1 ≤ i → i ≤ m → (loopDown backward_body m s).computed (i - 1) =
      (s.rhs_val (i - 1) + (loopDown backward_body m s).computed i) / s.diag (i - 1)) := by
  induction m generalizing s with
  | zero =>
    refine ⟨rfl, rfl, fun j _ => rfl, ?_⟩
    intro i h1 h0
    omega
  | succ m ih =>
    obtain ⟨h1, h2, h3, h4⟩ := ih (backward_body (m + 1) s)
    rw [loopDown_succ]
    refine ⟨h1, h2, ?_, ?_⟩
    · intro j hj
      rw [h3 j (by omega)]
      have hne : j ≠ m + 1 - 1 := by omega
      simp only [backward_body, Function.update_noteq hne]
    · intro i hi1 him
      by_cases hi : i = m + 1
      · subst hi
        rw [h3 (m + 1 - 1) (by omega), h3 (m + 1) (by omega)]
        have hne : m + 1 ≠ m + 1 - 1 := by omega
        simp only [backward_body, Function.update_same, Function.update_noteq hne]
      · have := h4 i hi1 (by omega)
        simpa [backward_body] using this

end SpecialArrays

section Special

variable {α : Type} [Field α]

theorem thomas_algorithm_special_recurrence (exp : α → α) (n : Nat) (hn : 1 ≤ n) :
    thomas_algorithm_special exp n (n - 1) =
      reduced_rhs (rhs_entry exp n) (n - 1) / pivot (n - 1) ∧
    ∀ i, 1 ≤ i → i ≤ n - 1 →
      thomas_algorithm_special exp n (i - 1) =
        (reduced_rhs (rhs_entry exp n) (i - 1) + thomas_algorithm_special exp n i) /
          pivot (i - 1) := by
  simp only [thomas_algorithm_special]
  obtain ⟨_, _, a3⟩ := SpecialArrays.special_loopUp_rhs_body exp (1 / ((n + 1 : Nat) : α))
    (SpecialArrays.fresh : SpecialArrays α) n
  generalize loopUp (SpecialArrays.rhs_body exp (1 / ((n + 1 : Nat) : α))) n
    (SpecialArrays.fresh : SpecialArrays α) = s1 at *
  obtain ⟨b1, _, b3⟩ := SpecialArrays.loopUp_diag_body s1 n
  generalize loopUp SpecialArrays.diag_body n s1 = s2 at *
  have hd2 : ∀ j, j ≤ n - 1 → s2.diag j = 2 := fun j hj => by
    rw [b3 j, if_pos (by omega)]
  obtain ⟨c1, _, c3, _⟩ := SpecialArrays.loopUp_diag_forward_body (n - 1) s2 hd2 (n - 1) (le_refl _)
  generalize loopUp SpecialArrays.diag_forward_body (n - 1) s2 = s3 at *
  have hr3 : ∀ j, j ≤ n - 1 → s3.rhs_val j = rhs_entry exp n j := fun j hj => by
    rw [c1, b1, a3 j, if_pos (by omega)]
    rfl
  obtain ⟨d1, _, d3, _⟩ :=
    SpecialArrays.loopUp_rhs_forward_body (rhs_entry exp n) (n - 1) s3 c3 hr3 (n - 1) (le_refl _)
  generalize loopUp SpecialArrays.rhs_forward_body (n - 1) s3 = s4 at *
  obtain ⟨e1, e2, e3, e4⟩ := SpecialArrays.special_loopDown_backward_body (n - 1)
    { s4 with
      computed := Function.update s4.computed (n - 1) (s4.rhs_val (n - 1) / s4.diag (n - 1)) }
  generalize loopDown SpecialArrays.backward_body (n - 1)
    { s4 with
      computed := Function.update s4.computed (n - 1) (s4.rhs_val (n - 1) / s4.diag (n - 1)) }
    = s6 at *
  simp only at e1 e2 e3 e4
  constructor
  · rw [e3 (n - 1) (le_refl _), Function.update_same, d3 (n - 1) (le_refl _), d1,
      c3 (n - 1) (le_refl _)]
  · intro i hi1 hin
    rw [e4 i hi1 hin, d3 (i - 1) (by omega), d1, c3 (i - 1) (by omega)]

end Special

section Solutions

variable {α : Type}

theorem eq_of_recurrence [Field α] (b v w : Nat → α) (n : Nat)
    (hv : v (n - 1) = reduced_rhs b (n - 1) / pivot (n - 1))
    (hvs : ∀ i, 1 ≤ i → i ≤ n - 1 → v (i - 1) = (reduced_rhs b (i - 1) + v i) / pivot (i - 1))
    (hw : w (n - 1) = reduced_rhs b (n - 1) / pivot (n - 1))
    (hws : ∀ i, 1 ≤ i → i ≤ n - 1 → w (i - 1) = (reduced_rhs b (i - 1) + w i) / pivot (i - 1)) :
    ∀ d, d ≤ n - 1 → v (n - 1 - d) = w (n - 1 - d) := by
  intro d
  induction d with
  | zero =>
    intro _
    rw [Nat.sub_zero, hv, hw]
  | succ d ih =>
    intro hd
    have hidx : n - 1 - (d + 1) = (n - 1 - d) - 1 := by omega
    rw [hidx, hvs (n - 1 - d) (by omega) (by omega), hws (n - 1 - d) (by omega) (by omega),
      ih (by omega)]

/-- C10: for every `n >= 1`, in exact arithmetic the vector `computed[0..n-1]`
of `thomas_algorithm_special` equals, element by element, the vector produced by
`thomas_algorithm`. -/
theorem thomas_algorithm_special_eq_general [Field α] (exp : α → α) (n : Nat) (hn : 1 ≤ n) :
    ∀ i, i < n → thomas_algorithm_special exp n i = thomas_algorithm exp n i := by
  intro i hi
  obtain ⟨hv, hvs⟩ := thomas_algorithm_special_recurrence exp n hn
  obtain ⟨hw, hws⟩ := thomas_algorithm_recurrence exp n hn
  have h := eq_of_recurrence (rhs_entry exp n) (thomas_algorithm_special exp n)
    (thomas_algorithm exp n) n hv hvs hw hws (n - 1 - i) (by omega)
  have hidx : n - 1 - (n - 1 - i) = i := by omega
  rw [hidx] at h
  exact h

theorem thomas_algorithm_special_eq_general_witness :
    1 ≤ 3 ∧ ∀ i, i < 3 →
      thomas_algorithm_special Real.exp 3 i = thomas_algorithm Real.exp 3 i :=
  ⟨by decide, thomas_algorithm_special_eq_general Real.exp 3 (by decide)⟩

end Solutions

/-! ## Theorems: the exact solution -/

theorem hasDerivAt_exact_solution (x : ℝ) :
    HasDerivAt (exact_solution Real.exp)
      (-(1 - Real.exp (-10)) + 10 * Real.exp (-10 * x)) x := by
  have h1 : HasDerivAt (fun y : ℝ => (1 - Real.exp (-10)) * y) (1 - Real.exp (-10)) x := by
    simpa using (hasDerivAt_id x).const_mul (1 - Real.exp (-10))
  have h2 : HasDerivAt (fun y : ℝ => -10 * y) (-10) x := by
    simpa using (hasDerivAt_id x).const_mul (-10 : ℝ)
  have h3 : HasDerivAt (fun y : ℝ => Real.exp (-10 * y)) (Real.exp (-10 * x) * (-10)) x :=
    h2.exp
  have h := ((hasDerivAt_const x (1 : ℝ)).sub h1).sub h3
  have heq : (0 - (1 - Real.exp (-10)) - Real.exp (-10 * x) * (-10)) =
      -(1 - Real.exp (-10)) + 10 * Real.exp (-10 * x) := by ring
  rw [heq] at h
  exact h

theorem deriv_exact_solution :
    deriv (exact_solution Real.exp) =
      fun x => -(1 - Real.exp (-10)) + 10 * Real.exp (-10 * x) :=
  funext fun x => (hasDerivAt_exact_solution x).deriv

theorem hasDerivAt_deriv_exact_solution (x : ℝ) :
    HasDerivAt (deriv (exact_solution Real.exp)) (-(rhs_func Real.exp x)) x := by
  rw [deriv_exact_solution]
  have h2 : HasDerivAt (fun y : ℝ => -10 * y) (-10) x := by
    simpa using (hasDerivAt_id x).const_mul (-10 : ℝ)
  have h3 : HasDerivAt (fun y : ℝ => 10 * Real.exp (-10 * y))
      (10 * (Real.exp (-10 * x) * (-10))) x := h2.exp.const_mul 10
  have h := (hasDerivAt_const x (-(1 - Real.exp (-10)))).add h3
  have heq : (0 + 10 * (Real.exp (-10 * x) * (-10))) = -(rhs_func Real.exp x) := by
    simp only [rhs_func]
    ring
  rw [heq] at h
  exact h

/-- C11: over the reals `u(x) = exact_solution(x)` satisfies `u(0) = 0`,
`u(1) = 0`, is differentiable with a differentiable derivative, and
`-u''(x) = rhs_func(x) = 100*exp(-10*x)` for every real `x`. -/
theorem exact_solution_solves_problem :
    exact_solution Real.exp 0 = 0 ∧ exact_solution Real.exp 1 = 0 ∧
    ∀ x : ℝ,
      DifferentiableAt ℝ (exact_solution Real.exp) x ∧
      DifferentiableAt ℝ (deriv (exact_solution Real.exp)) x ∧
      -(deriv (deriv (exact_solution Real.exp)) x) = rhs_func Real.exp x ∧
      rhs_func Real.exp x = 100 * Real.exp (-10 * x) := by
  refine ⟨?_, ?_, ?_⟩
  · simp [exact_solution]
  · simp only [exact_solution]
    norm_num
  · intro x
    refine ⟨(hasDerivAt_exact_solution x).differentiableAt,
      (hasDerivAt_deriv_exact_solution x).differentiableAt, ?_, rfl⟩
    rw [(hasDerivAt_deriv_exact_solution x).deriv, neg_neg]

/-! ## Theorems: `gauss_legendre_points` -/

namespace GaussLegendre

variable {α : Type}

end GaussLegendre

/-! ### The Newton refinement of the middle root for `n = 9` over the reals -/

namespace GaussLegendre

end GaussLegendre

/-! ### The run for `n = 3` over the reals returns -/

namespace GaussLegendre

theorem legendre_three (z : ℝ) :
    (legendre 3 z).p1 = (5 * z ^ 3 - 3 * z) / 2 ∧ (legendre 3 z).p2 = (3 * z ^ 2 - 1) / 2 := by
  constructor
  · simp only [legendre, loopUp, legendre_body]
    push_cast
    ring
  · simp only [legendre, loopUp, legendre_body]
    push_cast
    ring

theorem newton_refine_three_succ (fuel : Nat) (z : ℝ) (hz : z ^ 2 - 1 ≠ 0) :
    newton_refine 3 (fuel + 1) z =
      if |z - (5 * z ^ 3 - 3 * z) / 2 / ((15 * z ^ 2 - 3) / 2) - z| > ZERO then
        newton_refine 3 fuel (z - (5 * z ^ 3 - 3 * z) / 2 / ((15 * z ^ 2 - 3) / 2))
      else some (z - (5 * z ^ 3 - 3 * z) / 2 / ((15 * z ^ 2 - 3) / 2), (15 * z ^ 2 - 3) / 2) := by
  have hpp : ((3 : Nat) : ℝ) * (z * (legendre 3 z).p1 - (legendre 3 z).p2) / (z * z - 1) =
      (15 * z ^ 2 - 3) / 2 := by
    rw [(legendre_three z).1, (legendre_three z).2]
    have hz' : z * z - 1 ≠ 0 := by
      have : z * z - 1 = z ^ 2 - 1 := by ring
      rw [this]
      exact hz
    field_simp
    ring
  rw [newton_refine]
  simp only [hpp]
  simp only [(legendre_three z).1]


theorem sqrt_three_fifths_bounds :
    Real.sqrt (3 / 5) ^ 2 = 3 / 5 ∧ (7745 / 10000 : ℝ) < Real.sqrt (3 / 5) ∧
      Real.sqrt (3 / 5) < 7746 / 10000 := by
  refine ⟨Real.sq_sqrt (by norm_num), ?_, ?_⟩
  · rw [Real.lt_sqrt (by norm_num)]
    norm_num
  · rw [Real.sqrt_lt' (by norm_num)]
    norm_num

theorem newton_three_sub_root (z r : ℝ) (hr : r ^ 2 = 3 / 5) (hz : 15 * z ^ 2 - 3 ≠ 0) :
    z - (5 * z ^ 3 - 3 * z) / 2 / ((15 * z ^ 2 - 3) / 2) - r =
      5 * (2 * z + r) * (z - r) ^ 2 / (15 * z ^ 2 - 3) := by
  field_simp
  linear_combination (-5 * r) * hr

theorem newton_three_sub_self (z r : ℝ) (hr : r ^ 2 = 3 / 5) (hz : 15 * z ^ 2 - 3 ≠ 0) :
    z - (5 * z ^ 3 - 3 * z) / 2 / ((15 * z ^ 2 - 3) / 2) - z =
      -(5 * z * (z - r) * (z + r)) / (15 * z ^ 2 - 3) := by
  field_simp
  linear_combination (-5 * z) * hr


theorem newton_three_shrink (z r d : ℝ) (hr : r ^ 2 = 3 / 5) (hr1 : 7745 / 10000 < r)
    (hr2 : r < 7746 / 10000) (hz1 : 3 / 4 ≤ z) (hz2 : z ≤ 4 / 5) (hd : |z - r| ≤ d) :
    r ≤ z - (5 * z ^ 3 - 3 * z) / 2 / ((15 * z ^ 2 - 3) / 2) ∧
      z - (5 * z ^ 3 - 3 * z) / 2 / ((15 * z ^ 2 - 3) / 2) ≤ r + 11 / 5 * d ^ 2 := by
  have hD : (0 : ℝ) < 15 * z ^ 2 - 3 := by nlinarith
  have hid := newton_three_sub_root z r hr (ne_of_gt hD)
  have hsq : (z - r) ^ 2 ≤ d ^ 2 := by
    have h := abs_le.mp hd
    have hd0 : 0 ≤ d := le_trans (abs_nonneg _) hd
    nlinarith [h.1, h.2]
  have hnum : 0 ≤ 5 * (2 * z + r) * (z - r) ^ 2 :=
    mul_nonneg (by linarith) (sq_nonneg _)
  have hk : 5 * (2 * z + r) ≤ 11 / 5 * (15 * z ^ 2 - 3) := by nlinarith
  have hpos : 0 ≤ 5 * (2 * z + r) * (z - r) ^ 2 / (15 * z ^ 2 - 3) := div_nonneg hnum hD.le
  have hup : 5 * (2 * z + r) * (z - r) ^ 2 / (15 * z ^ 2 - 3) ≤ 11 / 5 * d ^ 2 := by
    rw [div_le_iff₀ hD]
    have h1 : 5 * (2 * z + r) * (z - r) ^ 2 ≤ 11 / 5 * (15 * z ^ 2 - 3) * (z - r) ^ 2 :=
      mul_le_mul_of_nonneg_right hk (sq_nonneg _)
    have h2 : 11 / 5 * (15 * z ^ 2 - 3) * (z - r) ^ 2 ≤ 11 / 5 * (15 * z ^ 2 - 3) * d ^ 2 :=
      mul_le_mul_of_nonneg_left hsq (by positivity)
    linarith
  constructor <;> linarith

theorem newton_three_returns_step (fuel : Nat) (z : ℝ) (hz1 : 3 / 4 ≤ z) (hz2 : z ≤ 4 / 5)
    (h : ∃ res, newton_refine 3 fuel
      (z - (5 * z ^ 3 - 3 * z) / 2 / ((15 * z ^ 2 - 3) / 2)) = some res) :
    ∃ res, newton_refine 3 (fuel + 1) z = some res := by
  have hz : z ^ 2 - 1 ≠ 0 := by nlinarith
  rw [newton_refine_three_succ fuel z hz]
  split_ifs
  · exact h
  · exact ⟨_, rfl⟩

theorem newton_three_returns_near (fuel : Nat) (z r : ℝ) (hr : r ^ 2 = 3 / 5)
    (hr1 : 7745 / 10000 < r) (hr2 : r < 7746 / 10000) (h1 : r ≤ z)
    (h2 : z ≤ r + 1 / 10 ^ 10) :
    ∃ res, newton_refine 3 (fuel + 1) z = some res := by
  have hz1 : (3 / 4 : ℝ) ≤ z := by linarith
  have hz2 : z ≤ 4 / 5 := by norm_num at h2; linarith
  have hz : z ^ 2 - 1 ≠ 0 := by nlinarith
  have hD : (0 : ℝ) < 15 * z ^ 2 - 3 := by nlinarith
  have hge := (newton_three_shrink z r (z - r) hr hr1 hr2 hz1 hz2
    (by rw [abs_of_nonneg (by linarith)])).1
  have hself := newton_three_sub_self z r hr (ne_of_gt hD)
  have hle : z - (5 * z ^ 3 - 3 * z) / 2 / ((15 * z ^ 2 - 3) / 2) - z ≤ 0 := by
    rw [hself]
    apply div_nonpos_of_nonpos_of_nonneg _ hD.le
    have : 0 ≤ 5 * z * (z - r) * (z + r) :=
      mul_nonneg (mul_nonneg (by linarith) (by linarith)) (by linarith)
    linarith
  rw [newton_refine_three_succ fuel z hz]
  have hnot : ¬ |z - (5 * z ^ 3 - 3 * z) / 2 / ((15 * z ^ 2 - 3) / 2) - z| > ZERO := by
    rw [abs_of_nonpos hle]
    simp only [ZERO, gt_iff_lt, not_lt]
    linarith
  rw [if_neg hnot]
  exact ⟨_, rfl⟩

theorem newton_three_returns_first (z : ℝ) (h1 : 76 / 100 ≤ z) (h2 : z ≤ 79 / 100) :
    ∃ res, newton_refine 3 4 z = some res := by
  obtain ⟨hr, hr1, hr2⟩ := sqrt_three_fifths_bounds
  generalize Real.sqrt (3 / 5) = r at hr hr1 hr2
  have hd0 : |z - r| ≤ 155 / 10000 := by
    rw [abs_le]
    constructor <;> linarith
  obtain ⟨a1, a2⟩ := newton_three_shrink z r _ hr hr1 hr2 (by linarith) (by linarith) hd0
  apply newton_three_returns_step 3 z (by linarith) (by linarith)
  generalize z - (5 * z ^ 3 - 3 * z) / 2 / ((15 * z ^ 2 - 3) / 2) = z1 at a1 a2 ⊢
  have hd1 : |z1 - r| ≤ 6 / 10000 := by
    rw [abs_le]
    constructor <;> norm_num at a2 ⊢ <;> linarith
  obtain ⟨b1, b2⟩ := newton_three_shrink z1 r _ hr hr1 hr2 (by linarith)
    (by norm_num at a2; linarith) hd1
  apply newton_three_returns_step 2 z1 (by linarith) (by norm_num at a2; linarith)
  generalize z1 - (5 * z1 ^ 3 - 3 * z1) / 2 / ((15 * z1 ^ 2 - 3) / 2) = z2 at b1 b2 ⊢
  have hd2 : |z2 - r| ≤ 1 / 1000000 := by
    rw [abs_le]
    constructor <;> norm_num at b2 ⊢ <;> linarith
  obtain ⟨c1, c2⟩ := newton_three_shrink z2 r _ hr hr1 hr2 (by linarith)
    (by norm_num at b2; linarith) hd2
  apply newton_three_returns_step 1 z2 (by linarith) (by norm_num at b2; linarith)
  generalize z2 - (5 * z2 ^ 3 - 3 * z2) / 2 / ((15 * z2 ^ 2 - 3) / 2) = z3 at c1 c2 ⊢
  exact newton_three_returns_near 0 z3 r hr hr1 hr2 c1 (by norm_num at c2 ⊢; linarith)

theorem initial_guess_three_one_bounds :
    (76 / 100 : ℝ) ≤ initial_guess Real.cos 3 1 ∧ initial_guess Real.cos 3 1 ≤ 79 / 100 := by
  have hx : initial_guess Real.cos 3 1 = Real.cos (942477796077 / 1400000000000) := by
    simp only [initial_guess, pi]
    congr 1
    norm_num
  have hb := Real.cos_bound (x := 942477796077 / 1400000000000)
    (by rw [abs_of_nonneg (by norm_num)]; norm_num)
  rw [abs_of_nonneg (by norm_num : (0 : ℝ) ≤ 942477796077 / 1400000000000)] at hb
  rw [hx]
  have h := abs_le.mp hb
  constructor
  · have := h.1
    norm_num at this
    linarith
  · have := h.2
    norm_num at this
    linarith


theorem initial_guess_three_two_bounds :
    -(1 / 10 ^ 12 : ℝ) < initial_guess Real.cos 3 2 ∧ initial_guess Real.cos 3 2 < 0 := by
  have hx : initial_guess Real.cos 3 2 =
      Real.cos ((314159265359 / 200000000000 - Real.pi / 2) + Real.pi / 2) := by
    simp only [initial_guess, pi]
    congr 1
    push_cast
    ring
  have hgt := Real.pi_gt_d20
  have hlt := Real.pi_lt_d20
  have ht0 : (0 : ℝ) < 314159265359 / 200000000000 - Real.pi / 2 := by
    norm_num at hlt ⊢
    linarith
  have ht1 : (314159265359 / 200000000000 - Real.pi / 2 : ℝ) < 1 / 10 ^ 12 := by
    norm_num at hgt ⊢
    linarith
  have hsin0 : 0 < Real.sin (314159265359 / 200000000000 - Real.pi / 2) :=
    Real.sin_pos_of_pos_of_lt_pi ht0 (by norm_num at ht1 ⊢; linarith [Real.pi_gt_three])
  have hsin1 := Real.sin_lt ht0
  rw [hx, Real.cos_add_pi_div_two]
  constructor <;> linarith

theorem newton_three_middle (fuel : Nat) (c : ℝ) (hc1 : -(1 / 10 ^ 12 : ℝ) < c) (hc2 : c < 0) :
    ∃ z pp, newton_refine 3 (fuel + 1) c = some (z, pp) ∧ 0 < z := by
  have hc1' : -(1 / 1000000000000 : ℝ) < c := by norm_num at hc1 ⊢; exact hc1
  have hsq : c ^ 2 < 1 / 100 := by nlinarith
  have hz : c ^ 2 - 1 ≠ 0 := by nlinarith
  have hE : (0 : ℝ) < 3 - 15 * c ^ 2 := by nlinarith
  have hD : (15 * c ^ 2 - 3 : ℝ) ≠ 0 := by
    intro h
    linarith
  have hstep : c - (5 * c ^ 3 - 3 * c) / 2 / ((15 * c ^ 2 - 3) / 2) - c =
      c * (5 * c ^ 2 - 3) / (3 - 15 * c ^ 2) := by
    field_simp
    ring
  have hval : c - (5 * c ^ 3 - 3 * c) / 2 / ((15 * c ^ 2 - 3) / 2) =
      -(10 * c ^ 3) / (3 - 15 * c ^ 2) := by
    field_simp
    ring
  have hnum : 0 ≤ c * (5 * c ^ 2 - 3) := by nlinarith
  have hnot : ¬ |c - (5 * c ^ 3 - 3 * c) / 2 / ((15 * c ^ 2 - 3) / 2) - c| > ZERO := by
    rw [hstep, abs_of_nonneg (div_nonneg hnum hE.le)]
    simp only [ZERO, gt_iff_lt, not_lt]
    rw [div_le_iff₀ hE]
    norm_num
    nlinarith
  rw [newton_refine_three_succ fuel c hz, if_neg hnot]
  refine ⟨_, _, rfl, ?_⟩
  rw [hval]
  apply div_pos _ hE
  have : c ^ 3 < 0 := by
    have h3 : c ^ 3 = c * c ^ 2 := by ring
    rw [h3]
    exact mul_neg_of_neg_of_pos hc2 (by nlinarith)
  linarith

theorem gauss_legendre_points_three_returns (x1 x2 : ℝ) (x w : Nat → ℝ) :
    ∃ out, gauss_legendre_points Real.cos 4 x1 x2 x w 3 = some out := by
  obtain ⟨r1, h1⟩ := newton_three_returns_first (initial_guess Real.cos 3 1)
    initial_guess_three_one_bounds.1 initial_guess_three_one_bounds.2
  obtain ⟨zm, ppm, h2, _⟩ := newton_three_middle 3 (initial_guess Real.cos 3 2)
    initial_guess_three_two_bounds.1 initial_guess_three_two_bounds.2
  have hm : (3 + 1) / 2 = 2 := by decide
  refine ⟨store_root (1 / 2 * (x2 + x1)) (1 / 2 * (x2 - x1)) zm ppm
    (store_root (1 / 2 * (x2 + x1)) (1 / 2 * (x2 - x1)) r1.1 r1.2 ⟨x, w, 0, 3 - 1, 0, 3 - 1⟩),
    ?_⟩
  simp only [gauss_legendre_points, hm, loopUp, root_body, h1, h2, Option.some_bind,
    Option.map_some']

end GaussLegendre

/-! ### The symmetry of the stored points and weights -/

namespace GaussLegendre

variable {α : Type}

end GaussLegendre
